import Mathlib

/-!
Verification of the Stock-Market-Simulation core (`stocksim.py`).

Shallow embedding of the program:
* Python floats used for money are modelled by `ℚ`; `round(x, 2)`
  (banker's rounding to two decimals) is `round2`.
* The price process (`StockSimulator`) uses `exp`, so it is modelled
  over `ℝ`; the random draw `np.random.normal(0, sqrt(dt))` becomes an
  arbitrary real argument `w`.
* The quantity text field is modelled by `Option ℤ`: `none` is a string
  that `int(...)` rejects with `ValueError`, `some q` a parsed integer.
* The JSON file `portfolio.json` is `Option (Option ℝ × Option ℤ × Option ℝ)`:
  `none` is a missing or unparseable file, and each field is optional
  because `load_data` uses `data.get(key, default)`.
-/

/-- Python's `round(x, 2)` at integer granularity: round half to even.
`n` is the floor; ties (`fractional part = 1/2`) go to the even neighbour. -/
def roundHalfEvenInt {α : Type} [LinearOrderedField α] [FloorRing α] (x : α) : ℤ :=
  let n := ⌊x⌋
  if x - n < 1 / 2 then n
  else if 1 / 2 < x - n then n + 1
  else if n % 2 = 0 then n else n + 1

/-- Python's `round(x, 2)`: round to two decimal places, half to even. -/
def round2 {α : Type} [LinearOrderedField α] [FloorRing α] (x : α) : α :=
  (roundHalfEvenInt (100 * x) : α) / 100

/-- Result of a trade attempt, mirroring the three `show_error` messages. -/
inductive TradeError : Type
  | invalidQuantity      -- "Invalid quantity!" (ValueError from int())
  | insufficientFunds    -- "Insufficient funds!"
  | insufficientShares   -- "Not enough shares!"
deriving DecidableEq, Repr

/-- Outcome of `buy_stock` / `sell_stock`. -/
inductive TradeResult : Type
  | ok
  | err (e : TradeError)
deriving DecidableEq, Repr

/-- The state of `StockTradingApp` relevant to trading and logging:
the `PortfolioManager`'s `_cash` and `_shares`, `current_price`,
`price_history`, `buy_events` and `sell_events`. -/
structure AppState : Type where
  cash : ℚ
  shares : ℤ
  current_price : ℚ
  price_history : List ℚ
  buy_events : List (ℕ × ℚ)
  sell_events : List (ℕ × ℚ)
deriving DecidableEq, Repr

/-- `StockTradingApp.__init__` after `load_data` returned
`(cash, shares, initial_price)`: the ledger is seeded with the loaded
values, `current_price` with the loaded price, `price_history` with
`[initial_price]`, and the event lists start empty. -/
def initState (cash : ℚ) (shares : ℤ) (initial_price : ℚ) : AppState :=
  { cash := cash
    shares := shares
    current_price := initial_price
    price_history := [initial_price]
    buy_events := []
    sell_events := [] }

/-- `StockTradingApp.buy_stock`.  `input` is the parse of the quantity
text field (`none` = `ValueError`).  On success the `PortfolioManager`
setters run: `cash` becomes `round(cash - total_cost, 2)`, `shares`
becomes `shares + quantity`, and `(len(price_history) - 1, current_price)`
is appended to `buy_events`. -/
def buy_stock (st : AppState) (input : Option ℤ) : AppState × TradeResult :=
  match input with
  | none => (st, .err .invalidQuantity)
  | some quantity =>
    let total_cost := st.current_price * quantity
    if total_cost ≤ st.cash then
      ({ st with
          cash := round2 (st.cash - total_cost)
          shares := st.shares + quantity
          buy_events :=
            st.buy_events ++ [(st.price_history.length - 1, st.current_price)] },
        .ok)
    else
      (st, .err .insufficientFunds)

/-- `StockTradingApp.sell_stock`: if the parsed quantity is at most the
held shares, `cash` becomes `round(cash + total_revenue, 2)`, `shares`
becomes `shares - quantity`, and the event is appended to `sell_events`. -/
def sell_stock (st : AppState) (input : Option ℤ) : AppState × TradeResult :=
  match input with
  | none => (st, .err .invalidQuantity)
  | some quantity =>
    if quantity ≤ st.shares then
      let total_revenue := st.current_price * quantity
      ({ st with
          cash := round2 (st.cash + total_revenue)
          shares := st.shares - quantity
          sell_events :=
            st.sell_events ++ [(st.price_history.length - 1, st.current_price)] },
        .ok)
    else
      (st, .err .insufficientShares)

/-- `StockTradingApp.update_price_display`, fed by the simulator's
`price_updated` signal with the emitted (rounded) price: it records the
price in `current_price` and appends it to `price_history`. -/
def update_price_display (st : AppState) (price : ℚ) : AppState :=
  { st with
      current_price := price
      price_history := st.price_history ++ [price] }

/-- One externally driven event of the app: a price tick (with the
emitted price value), or a click of Buy / Sell with the current text
field parse. -/
inductive Op : Type
  | tick (price : ℚ)
  | buy (input : Option ℤ)
  | sell (input : Option ℤ)
deriving DecidableEq, Repr

/-- Apply one externally driven event to the app state, discarding the
per-trade result. -/
def applyOp (st : AppState) : Op → AppState
  | .tick p => update_price_display st p
  | .buy i => (buy_stock st i).1
  | .sell i => (sell_stock st i).1

/-- Run a sequence of events against the app state. -/
def runOps (st : AppState) : List Op → AppState
  | [] => st
  | op :: ops => runOps (applyOp st op) ops

/-- The ledger-level invariant the spec asserts, together with the price
fact it needs: nonnegative cash, shares and current price. -/
def LedgerInv (st : AppState) : Prop :=
  0 ≤ st.cash ∧ 0 ≤ st.shares ∧ 0 ≤ st.current_price

/-- The event-log invariant: the price history is nonempty, every
logged event's time index is a valid index into `price_history`, and
the time indices of each event list are non-decreasing in append
order. -/
def EventInv (st : AppState) : Prop :=
  0 < st.price_history.length ∧
  (∀ e ∈ st.buy_events, e.1 < st.price_history.length) ∧
  (∀ e ∈ st.sell_events, e.1 < st.price_history.length) ∧
  (st.buy_events.map Prod.fst).Pairwise (· ≤ ·) ∧
  (st.sell_events.map Prod.fst).Pairwise (· ≤ ·)

/-- `StockSimulator`: current price and the GBM parameters `mu`
(drift), `sigma` (volatility), `dt` (time step). -/
structure StockSimulator : Type where
  price : ℝ
  mu : ℝ
  sigma : ℝ
  dt : ℝ

/-- `StockSimulator.update_price`, with the random draw
`np.random.normal(0, sqrt(dt))` made explicit as `w` (for a standard
normal variate `Z`, `w = Z * sqrt(dt)`):
`price *= exp((mu - 0.5*sigma^2)*dt + sigma*w)`, then the signal
`price_updated` emits `round(price, 2)`.  Returns the mutated simulator
and the emitted value. -/
noncomputable def update_price (s : StockSimulator) (w : ℝ) :
    StockSimulator × ℝ :=
  let drift := (s.mu - 0.5 * s.sigma ^ 2) * s.dt
  let diffusion := s.sigma * w
  let s' := { s with price := s.price * Real.exp (drift + diffusion) }
  (s', round2 s'.price)

/-- Fold `update_price` over a sequence of random draws, keeping the
mutated simulator. -/
noncomputable def update_price_all (s : StockSimulator) :
    List ℝ → StockSimulator
  | [] => s
  | w :: ws => update_price_all (update_price s w).1 ws

/-- The durable `portfolio.json`: `none` is a missing or unparseable
file; otherwise each of the keys `cash`, `shares`, `stock_price` may be
present or absent. -/
def Store : Type := Option (Option ℝ × Option ℤ × Option ℝ)

/-- `StockTradingApp.load_data`: read the record, defaulting each field
(`data.get("cash", 10000.0)` etc.); a missing or malformed file yields
`(10000.0, 0, 100.0)`. -/
def load_data : Store → ℝ × ℤ × ℝ
  | none => (10000, 0, 100)
  | some d => (d.1.getD 10000, d.2.1.getD 0, d.2.2.getD 100)

/-- `StockTradingApp.save_data(cash, shares)`: overwrite the record with
`{cash, shares, stock_price}` where `stock_price` is the simulator's
current (exact, unrounded) `price`. -/
def save_data (cash : ℝ) (shares : ℤ) (stock_price : ℝ) : Store :=
  some (some cash, some shares, some stock_price)

/-- The end-to-end scenario's states: start `{cash 10000, shares 0}` at
price 50, buy 100, attempt to sell 150, price ticks to 60, sell 100. -/
def scenario0 : AppState := initState 10000 0 50

def scenario1 : AppState := (buy_stock scenario0 (some 100)).1

def scenario2 : AppState := (sell_stock scenario1 (some 150)).1

def scenario3 : AppState := update_price_display scenario2 60

def scenario4 : AppState := (sell_stock scenario3 (some 100)).1

/-- Validity of one driven event, as the spec's preconditions put it:
tick prices are nonnegative (the simulator's prices are in fact
positive), and parsed trade quantities are positive integers. -/
def OpValid : Op → Prop
  | .tick p => 0 ≤ p
  | .buy none => True
  | .buy (some q) => 0 < q
  | .sell none => True
  | .sell (some q) => 0 < q

/-! ### Helper lemmas -/

lemma roundHalfEvenInt_nonneg {α : Type} [LinearOrderedField α] [FloorRing α]
    {x : α} (hx : 0 ≤ x) : 0 ≤ roundHalfEvenInt x := by
  have hn : (0 : ℤ) ≤ ⌊x⌋ := Int.floor_nonneg.mpr hx
  unfold roundHalfEvenInt
  dsimp only
  split_ifs <;> omega

lemma round2_nonneg {α : Type} [LinearOrderedField α] [FloorRing α]
    {x : α} (hx : 0 ≤ x) : 0 ≤ round2 x := by
  unfold round2
  have h : 0 ≤ roundHalfEvenInt (100 * x) :=
    roundHalfEvenInt_nonneg (by positivity)
  have h' : (0 : α) ≤ (roundHalfEvenInt (100 * x) : α) := by exact_mod_cast h
  exact div_nonneg h' (by norm_num)

lemma applyOp_ledgerInv (st : AppState) (op : Op) (hv : OpValid op)
    (h : LedgerInv st) : LedgerInv (applyOp st op) := by
  obtain ⟨hc, hs, hp⟩ := h
  cases op with
  | tick p => exact ⟨hc, hs, hv⟩
  | buy i =>
    cases i with
    | none => exact ⟨hc, hs, hp⟩
    | some q =>
      have hq : (0 : ℤ) < q := hv
      simp only [applyOp, buy_stock]
      split
      · rename_i hcost
        refine ⟨round2_nonneg (by linarith), ?_, hp⟩
        simp only
        omega
      · exact ⟨hc, hs, hp⟩
  | sell i =>
    cases i with
    | none => exact ⟨hc, hs, hp⟩
    | some q =>
      have hq : (0 : ℤ) < q := hv
      simp only [applyOp, sell_stock]
      split
      · rename_i hsh
        have hq' : (0 : ℚ) ≤ (q : ℚ) := by exact_mod_cast hq.le
        refine ⟨round2_nonneg ?_, ?_, hp⟩
        · have : 0 ≤ st.current_price * (q : ℚ) := mul_nonneg hp hq'
          linarith
        · simp only
          omega
      · exact ⟨hc, hs, hp⟩

lemma runOps_ledgerInv (ops : List Op) (st : AppState)
    (hv : ∀ op ∈ ops, OpValid op) (h : LedgerInv st) :
    LedgerInv (runOps st ops) := by
  induction ops generalizing st with
  | nil => exact h
  | cons op ops ih =>
    exact ih (applyOp st op)
      (fun o ho => hv o (List.mem_cons_of_mem op ho))
      (applyOp_ledgerInv st op (hv op (List.mem_cons_self op ops)) h)

/-! ### Claims -/

/-- C2 (amended): starting from loaded values with nonnegative cash,
shares and price, and running any sequence of ticks and trades in which
every tick price is nonnegative and every parsed quantity is a positive
integer, `cash ≥ 0` and `shares ≥ 0` hold after every operation. -/
theorem C2_theorem (c : ℚ) (s : ℤ) (p : ℚ) (ops : List Op)
    (hc : 0 ≤ c) (hs : 0 ≤ s) (hp : 0 ≤ p)
    (hv : ∀ op ∈ ops, OpValid op) :
    0 ≤ (runOps (initState c s p) ops).cash ∧
    0 ≤ (runOps (initState c s p) ops).shares := by
  have h := runOps_ledgerInv ops (initState c s p) hv ⟨hc, hs, hp⟩
  exact ⟨h.1, h.2.1⟩

/-- C2 (counterexample): with arbitrary integer quantities and real
unit prices, the invariants fail.  A sell of quantity `-1000` at price
100 drives cash to `-90000`; a buy of quantity `-1` drives shares to
`-1`; and a sell of 100 shares at unit price `-200` drives cash to
`-10000`. -/
theorem C2_counterexample :
    (runOps (initState 10000 0 100) [.sell (some (-1000))]).cash < 0 ∧
    (runOps (initState 10000 0 100) [.buy (some (-1))]).shares < 0 ∧
    (runOps (initState 10000 100 (-200)) [.sell (some 100)]).cash < 0 := by
  refine ⟨?_, ?_, ?_⟩
  · simp only [runOps, applyOp, sell_stock, initState]
    norm_num
    simp only [round2, roundHalfEvenInt]
    norm_num
  · simp only [runOps, applyOp, buy_stock, initState]
    norm_num
  · simp only [runOps, applyOp, sell_stock, initState]
    norm_num
    simp only [round2, roundHalfEvenInt]
    norm_num

theorem C2_witness :
    (0 : ℚ) ≤ 10000 ∧ (0 : ℤ) ≤ 0 ∧ (0 : ℚ) ≤ 100 ∧
    (∀ op ∈ ([.tick 50, .buy (some 100), .sell (some 50)] : List Op),
      OpValid op) ∧
    (0 ≤ (runOps (initState 10000 0 100)
        [.tick 50, .buy (some 100), .sell (some 50)]).cash ∧
     0 ≤ (runOps (initState 10000 0 100)
        [.tick 50, .buy (some 100), .sell (some 50)]).shares) := by
  have hops : ∀ op ∈ ([.tick 50, .buy (some 100), .sell (some 50)] : List Op),
      OpValid op := by
    intro op hop
    fin_cases hop <;> norm_num [OpValid]
  exact ⟨by norm_num, by norm_num, by norm_num, hops,
    C2_theorem 10000 0 100 _ (by norm_num) (by norm_num) (by norm_num) hops⟩

/-- C1 (amended): a non-numeric quantity input (one that `int(...)`
rejects) makes `buy_stock` and `sell_stock` fail with `InvalidQuantity`
and leave the state unchanged; a quantity that parses to an integer —
positive or not — is never rejected with `InvalidQuantity`. -/
theorem C1_theorem (st : AppState) :
    buy_stock st none = (st, .err .invalidQuantity) ∧
    sell_stock st none = (st, .err .invalidQuantity) ∧
    ∀ q : ℤ, (buy_stock st (some q)).2 ≠ .err .invalidQuantity ∧
      (sell_stock st (some q)).2 ≠ .err .invalidQuantity := by
  refine ⟨rfl, rfl, fun q => ⟨?_, ?_⟩⟩
  · simp only [buy_stock]
    split <;> simp
  · simp only [sell_stock]
    split <;> simp

/-- C1 (counterexample): the claim says a non-positive quantity fails
with `InvalidQuantity` and performs no mutation; but `buy_stock` with
quantity `-1` from `{cash 10000, shares 0, price 50}` succeeds and
mutates the state to `{cash 10050, shares -1}`. -/
theorem C1_counterexample :
    (buy_stock (initState 10000 0 50) (some (-1))).2 = .ok ∧
    (buy_stock (initState 10000 0 50) (some (-1))).1.shares = -1 ∧
    (buy_stock (initState 10000 0 50) (some (-1))).1.cash = 10050 := by
  refine ⟨?_, ?_, ?_⟩
  · simp only [buy_stock, initState]
    norm_num
  · simp only [buy_stock, initState]
    norm_num
  · simp only [buy_stock, initState]
    norm_num
    simp only [round2, roundHalfEvenInt]
    norm_num

/-- C3: any `buy_stock` or `sell_stock` call that fails validation
(`InvalidQuantity`, `InsufficientFunds` or `InsufficientShares`) leaves
the whole state — in particular `(cash, shares)` — identical to before
the call. -/
theorem C3_theorem (st : AppState) (input : Option ℤ) (e : TradeError) :
    ((buy_stock st input).2 = .err e → (buy_stock st input).1 = st) ∧
    ((sell_stock st input).2 = .err e → (sell_stock st input).1 = st) := by
  constructor
  · cases input with
    | none => intro _; rfl
    | some q =>
      simp only [buy_stock]
      split
      · intro h; exact absurd h (by simp)
      · intro _; rfl
  · cases input with
    | none => intro _; rfl
    | some q =>
      simp only [sell_stock]
      split
      · intro h; exact absurd h (by simp)
      · intro _; rfl

lemma scenario1_eq :
    scenario1 = ⟨5000, 100, 50, [50], [(0, 50)], []⟩ := by
  simp only [scenario1, scenario0, buy_stock, initState]
  norm_num
  simp only [round2, roundHalfEvenInt]
  norm_num

lemma scenario2_eq :
    scenario2 = ⟨5000, 100, 50, [50], [(0, 50)], []⟩ := by
  simp only [scenario2, scenario1_eq, sell_stock]
  norm_num

lemma scenario4_eq :
    scenario4 = ⟨11000, 0, 60, [50, 60], [(0, 50)], [(1, 60)]⟩ := by
  simp only [scenario4, scenario3, scenario2_eq, update_price_display,
    sell_stock]
  norm_num
  simp only [round2, roundHalfEvenInt]
  norm_num

/-- C4: a successful `buy_stock` yields
`cash' = round(cash - price*q, 2)` and `shares' = shares + q`; a
successful `sell_stock` yields `cash' = round(cash + price*q, 2)` and
`shares' = shares - q`; and the end-to-end scenario holds: from
`{cash 10000, shares 0}` at price 50, `buy 100` succeeds giving
`{5000, 100}`, `sell 150` fails with `InsufficientShares` leaving
`{5000, 100}`, and after the price ticks to 60, `sell 100` succeeds
giving `{11000, 0}`. -/
theorem C4_theorem :
    (∀ st : AppState, ∀ q : ℤ, (buy_stock st (some q)).2 = .ok →
      (buy_stock st (some q)).1.cash = round2 (st.cash - st.current_price * q) ∧
      (buy_stock st (some q)).1.shares = st.shares + q) ∧
    (∀ st : AppState, ∀ q : ℤ, (sell_stock st (some q)).2 = .ok →
      (sell_stock st (some q)).1.cash = round2 (st.cash + st.current_price * q) ∧
      (sell_stock st (some q)).1.shares = st.shares - q) ∧
    ((buy_stock scenario0 (some 100)).2 = .ok ∧
      scenario1.cash = 5000 ∧ scenario1.shares = 100) ∧
    ((sell_stock scenario1 (some 150)).2 = .err .insufficientShares ∧
      scenario2.cash = 5000 ∧ scenario2.shares = 100) ∧
    ((sell_stock scenario3 (some 100)).2 = .ok ∧
      scenario4.cash = 11000 ∧ scenario4.shares = 0) := by
  refine ⟨?_, ?_, ?_, ?_, ?_⟩
  · intro st q h
    revert h
    simp only [buy_stock]
    split
    · intro _; exact ⟨rfl, rfl⟩
    · intro h; exact absurd h (by simp)
  · intro st q h
    revert h
    simp only [sell_stock]
    split
    · intro _; exact ⟨rfl, rfl⟩
    · intro h; exact absurd h (by simp)
  · refine ⟨?_, by rw [scenario1_eq], by rw [scenario1_eq]⟩
    simp only [buy_stock, scenario0, initState]
    norm_num
  · refine ⟨?_, by rw [scenario2_eq], by rw [scenario2_eq]⟩
    simp only [sell_stock, scenario1_eq]
    norm_num
  · refine ⟨?_, by rw [scenario4_eq], by rw [scenario4_eq]⟩
    simp only [sell_stock, scenario3, scenario2_eq, update_price_display]
    norm_num

theorem C4_witness :
    (buy_stock scenario0 (some 100)).2 = .ok ∧
    (buy_stock scenario0 (some 100)).1.cash =
      round2 (scenario0.cash - scenario0.current_price * (100 : ℤ)) ∧
    (buy_stock scenario0 (some 100)).1.shares = scenario0.shares + 100 := by
  have hok : (buy_stock scenario0 (some 100)).2 = .ok := by
    simp only [buy_stock, scenario0, initState]
    norm_num
  exact ⟨hok, (C4_theorem.1 scenario0 100 hok).1,
    (C4_theorem.1 scenario0 100 hok).2⟩

theorem C3_witness :
    (buy_stock (initState 10000 0 50) (some 1000000)).2 =
      .err .insufficientFunds ∧
    (buy_stock (initState 10000 0 50) (some 1000000)).1 =
      initState 10000 0 50 := by
  constructor
  · simp only [buy_stock, initState]
    norm_num
  · exact (C3_theorem (initState 10000 0 50) (some 1000000)
      .insufficientFunds).1 (by simp only [buy_stock, initState]; norm_num)

lemma update_price_all_pos (ws : List ℝ) :
    ∀ s : StockSimulator, 0 < s.price → 0 < (update_price_all s ws).price := by
  induction ws with
  | nil => intro s h; exact h
  | cons w ws ih =>
    intro s h
    exact ih _ (mul_pos h (Real.exp_pos _))

/-- C5: for a simulator with positive initial price, nonnegative
volatility and positive time step, every sequence of `update_price`
calls — whatever the values of the normal draws — keeps `price > 0`,
because the update is multiplicative by `exp(...) > 0`. -/
theorem C5_theorem (s : StockSimulator) (h : 0 < s.price)
    (hsigma : 0 ≤ s.sigma) (hdt : 0 < s.dt) (ws : List ℝ) :
    0 < (update_price_all s ws).price :=
  update_price_all_pos ws s h

theorem C5_witness :
    0 < (StockSimulator.mk 100 (1 / 10) (1 / 5) (1 / 252)).price ∧
    0 ≤ (StockSimulator.mk 100 (1 / 10) (1 / 5) (1 / 252)).sigma ∧
    0 < (StockSimulator.mk 100 (1 / 10) (1 / 5) (1 / 252)).dt ∧
    0 < (update_price_all
      (StockSimulator.mk 100 (1 / 10) (1 / 5) (1 / 252)) [1, -2]).price :=
  ⟨show (0 : ℝ) < 100 by norm_num, show (0 : ℝ) ≤ 1 / 5 by norm_num,
    show (0 : ℝ) < 1 / 252 by norm_num,
    C5_theorem _ (show (0 : ℝ) < 100 by norm_num)
      (show (0 : ℝ) ≤ 1 / 5 by norm_num)
      (show (0 : ℝ) < 1 / 252 by norm_num) [1, -2]⟩

/-- C6: with drift 0, volatility 0, time step `1/252` and price 100,
`update_price` leaves the internal price at exactly 100 and emits
exactly 100, for any value of the random draw: the exponent degenerates
to 0. -/
theorem C6_theorem (w : ℝ) :
    (update_price (StockSimulator.mk 100 0 0 (1 / 252)) w).2 = 100 ∧
    (update_price (StockSimulator.mk 100 0 0 (1 / 252)) w).1.price = 100 := by
  have hexp : ((0 : ℝ) - 0.5 * 0 ^ 2) * (1 / 252) + 0 * w = 0 := by ring
  have hprice :
      (update_price (StockSimulator.mk 100 0 0 (1 / 252)) w).1.price = 100 := by
    show (100 : ℝ) * Real.exp (((0 : ℝ) - 0.5 * 0 ^ 2) * (1 / 252) + 0 * w)
        = 100
    rw [hexp, Real.exp_zero, mul_one]
  refine ⟨?_, hprice⟩
  show round2 ((100 : ℝ) * Real.exp (((0 : ℝ) - 0.5 * 0 ^ 2) * (1 / 252)
      + 0 * w)) = 100
  rw [hexp, Real.exp_zero, mul_one]
  simp only [round2, roundHalfEvenInt]
  norm_num

/-- C7: persistence round-trips.  Loading right after saving a record
`{c, s, p}` returns exactly `{c, s, p}`, and saving what was loaded
from a full record reproduces that durable record. -/
theorem C7_theorem (c : ℝ) (s : ℤ) (p : ℝ) :
    load_data (save_data c s p) = (c, s, p) ∧
    save_data (load_data (some (some c, some s, some p))).1
        (load_data (some (some c, some s, some p))).2.1
        (load_data (some (some c, some s, some p))).2.2 =
      some (some c, some s, some p) :=
  ⟨rfl, rfl⟩

/-- C8: when the durable record is absent or unparseable (both reach
the `except` branch, modelled by `none`), `load_data` returns the
defaults `{cash 10000.0, shares 0, stock_price 100.0}` instead of
propagating an error. -/
theorem C8_theorem : load_data none = (10000, 0, 100) := rfl

lemma pairwise_append_last {l : List (ℕ × ℚ)} {n : ℕ} {c : ℚ}
    (hl : (l.map Prod.fst).Pairwise (· ≤ ·))
    (hb : ∀ e ∈ l, e.1 < n) :
    ((l ++ [(n - 1, c)]).map Prod.fst).Pairwise (· ≤ ·) := by
  rw [List.map_append, List.pairwise_append]
  refine ⟨hl, by simp, ?_⟩
  intro a ha b hbmem
  simp only [List.map_cons, List.map_nil, List.mem_singleton] at hbmem
  subst hbmem
  obtain ⟨e, he, rfl⟩ := List.mem_map.mp ha
  have := hb e he
  omega

lemma applyOp_eventInv (st : AppState) (op : Op) (h : EventInv st) :
    EventInv (applyOp st op) := by
  obtain ⟨hlen, hbuy, hsell, hpb, hps⟩ := h
  cases op with
  | tick p =>
    refine ⟨?_, ?_, ?_, hpb, hps⟩
    · simp only [applyOp, update_price_display, List.length_append]
      omega
    · intro e he
      simp only [applyOp, update_price_display, List.length_append]
      have := hbuy e he
      omega
    · intro e he
      simp only [applyOp, update_price_display, List.length_append]
      have := hsell e he
      omega
  | buy i =>
    cases i with
    | none => exact ⟨hlen, hbuy, hsell, hpb, hps⟩
    | some q =>
      simp only [applyOp, buy_stock]
      split
      · refine ⟨hlen, ?_, hsell, pairwise_append_last hpb hbuy, hps⟩
        intro e he
        simp only at he ⊢
        rcases List.mem_append.mp he with h' | h'
        · exact hbuy e h'
        · simp only [List.mem_singleton] at h'
          subst h'
          omega
      · exact ⟨hlen, hbuy, hsell, hpb, hps⟩
  | sell i =>
    cases i with
    | none => exact ⟨hlen, hbuy, hsell, hpb, hps⟩
    | some q =>
      simp only [applyOp, sell_stock]
      split
      · refine ⟨hlen, hbuy, ?_, hpb, pairwise_append_last hps hsell⟩
        intro e he
        simp only at he ⊢
        rcases List.mem_append.mp he with h' | h'
        · exact hsell e h'
        · simp only [List.mem_singleton] at h'
          subst h'
          omega
      · exact ⟨hlen, hbuy, hsell, hpb, hps⟩

lemma runOps_eventInv (ops : List Op) (st : AppState) (h : EventInv st) :
    EventInv (runOps st ops) := by
  induction ops generalizing st with
  | nil => exact h
  | cons op ops ih => exact ih (applyOp st op) (applyOp_eventInv st op h)

/-- C9: after any sequence of price ticks and trades from a freshly
constructed app state, the price history is nonempty, every logged buy
and sell event's time index is a valid index into `price_history`
(within `[0, len - 1]`), and within each event list the time indices
are non-decreasing in append order. -/
theorem C9_theorem (c : ℚ) (s : ℤ) (p : ℚ) (ops : List Op) :
    0 < (runOps (initState c s p) ops).price_history.length ∧
    (∀ e ∈ (runOps (initState c s p) ops).buy_events,
      e.1 < (runOps (initState c s p) ops).price_history.length) ∧
    (∀ e ∈ (runOps (initState c s p) ops).sell_events,
      e.1 < (runOps (initState c s p) ops).price_history.length) ∧
    ((runOps (initState c s p) ops).buy_events.map Prod.fst).Pairwise
      (· ≤ ·) ∧
    ((runOps (initState c s p) ops).sell_events.map Prod.fst).Pairwise
      (· ≤ ·) :=
  runOps_eventInv ops (initState c s p)
    ⟨by simp [initState], by simp [initState], by simp [initState],
      by simp [initState], by simp [initState]⟩

/-- C10: `update_price` never rounds the internal price — it is the
exact multiplicative GBM update — and only the emitted value is the
2-decimal rounding of it; `save_data` writes the exact internal price
into the record's `stock_price` field; and rounding is not the
identity, so the saved exact price can differ from the displayed
rounded one. -/
theorem C10_theorem (s : StockSimulator) (w : ℝ) (c : ℝ) (sh : ℤ) :
    (update_price s w).1.price =
      s.price * Real.exp ((s.mu - 0.5 * s.sigma ^ 2) * s.dt + s.sigma * w) ∧
    (update_price s w).2 = round2 ((update_price s w).1.price) ∧
    save_data c sh (update_price s w).1.price =
      some (some c, some sh, some ((update_price s w).1.price)) ∧
    ∃ p : ℝ, 0 < p ∧ round2 p ≠ p := by
  refine ⟨rfl, rfl, rfl, ⟨1 / 1000, by norm_num, ?_⟩⟩
  have hzero : round2 ((1 : ℝ) / 1000) = 0 := by
    simp only [round2, roundHalfEvenInt]
    norm_num
  rw [hzero]
  norm_num
